import Mathlib

/-!
Verification of the code-organization examples repository
(`src/code-org/grunt.js`).

The repository is a pedagogical artifact: a grunt build configuration and a
narrated sequence of JavaScript code-organization examples (globals, IIFEs,
the module pattern, constructors/prototypes, and a sketch of the
requirejs-style `define([...], factory)` convention at the end of the file).

The module-registration-and-resolution mechanism (`define` / `require`,
module states Unresolved/Resolving/Resolved, the three error kinds) that the
specification describes is not itself implemented in the repository sources:
the sources only show two `define` calls in the requirejs convention.  That
mechanism is therefore modelled below directly from the specification text,
and each such definition is marked `Modelled from the spec`.  The
namespace-creation step and the `SecretMessage.say` index computation are
embedded from the actual source lines.
-/

namespace CodeOrg

/-- Module names are string keys. -/
abbrev Name := String

/-- Modelled from the spec: the runtime state of a `ModuleRecord`
(`state ∈ {Unresolved, Resolving, Resolved}`; `exportedValue` present only
when Resolved).  The value type `V` abstracts the module's exported value. -/
inductive ModState (V : Type) where
  | unresolved : ModState V
  | resolving : ModState V
  | resolved (value : V) : ModState V
deriving Repr, DecidableEq

/-- Modelled from the spec: a registered `ModuleDefinition` together with its
runtime state: an ordered sequence of dependency names, a factory accepting
one resolved value per declared dependency (in declared order), and the
record's state. -/
structure ModRecord (V : Type) where
  deps : List Name
  factory : List V → V
  state : ModState V

/-- Modelled from the spec: the error taxonomy of the ModuleRegistry
(`UnknownModuleError`, `CyclicDependencyError` with the cycle path, and
`DuplicateActiveModuleError`).  `fuelExhausted` is an artifact of the
fuel-based embedding of the recursive resolution and is unreachable with the
fuel budget `requireM` supplies; no theorem below relies on it. -/
inductive ModError where
  | unknownModule (name : Name) : ModError
  | cyclicDependency (path : List Name) : ModError
  | duplicateActiveModule (name : Name) : ModError
  | fuelExhausted : ModError
deriving Repr, DecidableEq

/-- Modelled from the spec: the ModuleRegistry associates names with records.
`log` records every factory invocation, in invocation order, as the pair of
the module's name and the positional argument list the factory received;
it exists so that "the factory executes exactly once" and the invocation
order are stateable properties. -/
structure Registry (V : Type) where
  records : List (Name × ModRecord V)
  log : List (Name × List V)

/-- The empty registry. -/
def Registry.empty (V : Type) : Registry V := ⟨[], []⟩

/-- Look up the record registered for `name`. -/
def Registry.find (r : Registry V) (name : Name) : Option (ModRecord V) :=
  r.records.lookup name

/-- The state of the record registered for `name` (if any). -/
def Registry.stateOf (r : Registry V) (name : Name) : Option (ModState V) :=
  (r.find name).map ModRecord.state

/-- Replace the state of the record registered for `name`, leaving every
other record untouched. -/
def Registry.setState (r : Registry V) (name : Name) (s : ModState V) :
    Registry V :=
  ⟨r.records.map fun p => if p.1 = name then (p.1, ⟨p.2.deps, p.2.factory, s⟩) else p,
   r.log⟩

/-- Add a fresh record for `name` (used when no record exists yet) or
replace an existing one wholesale. -/
def Registry.setRecord (r : Registry V) (name : Name) (rec : ModRecord V) :
    Registry V :=
  ⟨(name, rec) :: r.records.filter fun p => p.1 ≠ name, r.log⟩

/-- Modelled from the spec: `define(name, dependencies, factory)` registers a
`ModuleDefinition`, creating or replacing the record for `name` in state
Unresolved.  It fails with `DuplicateActiveModuleError` if the name is
currently Resolving, and — per the invariant "redefinition replaces the
prior definition only if it has not yet been resolved" — leaves a Resolved
record untouched. -/
def defineM (r : Registry V) (name : Name) (deps : List Name)
    (factory : List V → V) : Except ModError (Registry V) :=
  match r.find name with
  | none => .ok (r.setRecord name ⟨deps, factory, .unresolved⟩)
  | some rec =>
    match rec.state with
    | .resolving => .error (.duplicateActiveModule name)
    | .resolved _ => .ok r
    | .unresolved => .ok (r.setRecord name ⟨deps, factory, .unresolved⟩)

/-- Modelled from the spec: resolve a dependency list in declared order with
the resolver `req`, threading the registry; the first failure aborts the
remaining dependencies. -/
def resolveDeps (req : Registry V → Name → Registry V × Except ModError V) :
    Registry V → List Name → Registry V × Except ModError (List V)
  | r, [] => (r, .ok [])
  | r, d :: ds =>
    match req r d with
    | (r', .error e) => (r', .error e)
    | (r', .ok v) =>
      match resolveDeps req r' ds with
      | (r'', .error e) => (r'', .error e)
      | (r'', .ok vs) => (r'', .ok (v :: vs))

/-- Modelled from the spec: the recursive core of `require(name)`.  `path` is
the chain of names currently being resolved (for the cycle-path report), and
`fuel` bounds the recursion depth so the embedding is structurally total;
`requireM` supplies more fuel than any resolution can consume.  Following the
spec: a Resolved record returns its cached value immediately; a Resolving
record reached again fails with `CyclicDependencyError` naming the cycle
path; an Unresolved record transitions to Resolving, resolves each declared
dependency in order depth-first, invokes the factory with the resolved
dependency values as positional arguments, caches the returned value,
transitions to Resolved and returns it; an unregistered name fails with
`UnknownModuleError`.  The registry is returned in every case, so the state
left behind by a failed resolution is observable. -/
def requireAux : Nat → Registry V → List Name → Name →
    Registry V × Except ModError V
  | 0, r, _, _ => (r, .error .fuelExhausted)
  | fuel + 1, r, path, name =>
    match r.find name with
    | none => (r, .error (.unknownModule name))
    | some rec =>
      match rec.state with
      | .resolved v => (r, .ok v)
      | .resolving => (r, .error (.cyclicDependency (path ++ [name])))
      | .unresolved =>
        let r1 := r.setState name .resolving
        match resolveDeps (fun r' d => requireAux fuel r' (path ++ [name]) d)
            r1 rec.deps with
        | (r2, .error e) => (r2, .error e)
        | (r2, .ok vals) =>
          let v := rec.factory vals
          let r3 := r2.setState name (.resolved v)
          (⟨r3.records, r3.log ++ [(name, vals)]⟩, .ok v)

/-- Modelled from the spec: `require(name)` resolves and returns the exported
value of the named module, resolving all transitive dependencies first.  The
fuel budget exceeds the number of registered records, so genuine resolution
never exhausts it: every resolution chain marks a distinct record Resolving
at each level of nesting. -/
def requireM (r : Registry V) (name : Name) : Registry V × Except ModError V :=
  requireAux (r.records.length + 1) r [] name

/-- Rank of a module state: Unresolved and absent rank 0, Resolving 1,
Resolved 2.  "Moving forward" through the lifecycle is rank growth. -/
def stateRank : Option (ModState V) → Nat
  | none => 0
  | some .unresolved => 0
  | some .resolving => 1
  | some (.resolved _) => 2

/-- The registry holding the single module `"M"` with no dependencies and a
constant factory, before any resolution. -/
def wRegC1 : Registry Nat :=
  ⟨[("M", ⟨[], fun _ => 42, .unresolved⟩)], []⟩

/-- `wRegC1` after `"M"` has been resolved: the record is Resolved with the
cached value and the log shows the single factory invocation. -/
def wRegC1' : Registry Nat :=
  ⟨[("M", ⟨[], fun _ => 42, .resolved 42⟩)], [("M", [])]⟩

/-- Registry for the C2 witness: `"A"` depends on `"B"`, `"B"` on nothing. -/
def wRegC2 : Registry Nat :=
  ⟨[("A", ⟨["B"], fun vs => vs.headD 0 + 1, .unresolved⟩),
    ("B", ⟨[], fun _ => 2, .unresolved⟩)], []⟩

/-- Registry for the C3 witness: `"M"` depends on `["A", "B"]`; `"B"` was
defined before `"A"`. -/
def wRegC3 : Registry Nat :=
  ⟨[("M", ⟨["A", "B"], fun vs => 10 * vs.headD 0 + (vs.drop 1).headD 0,
      .unresolved⟩),
    ("B", ⟨[], fun _ => 2, .unresolved⟩),
    ("A", ⟨[], fun _ => 7, .unresolved⟩)], []⟩

/-- Registry for the C4 witness: `"A"` and `"B"` depend on each other. -/
def wRegC4 : Registry Nat :=
  ⟨[("A", ⟨["B"], fun _ => 0, .unresolved⟩),
    ("B", ⟨["A"], fun _ => 1, .unresolved⟩)], []⟩

/-- Registry for the C5 witness: `"X"` depends on the never-defined
`"Y"`. -/
def wRegC5 : Registry Nat :=
  ⟨[("X", ⟨["Y"], fun _ => 0, .unresolved⟩)], []⟩

/-- A member attached to the `myApp` namespace object by the source's IIFEs:
`sayHello` and `sayGoodbye` (grunt.js lines 159-160), the `SecretMessage`
module object (line 182) and the `Person` constructor (line 221). -/
inductive AppMember where
  | sayHelloFn : AppMember
  | sayGoodbyeFn : AppMember
  | secretMessageModule : AppMember
  | personCtor : AppMember
deriving Repr, DecidableEq

/-- The `myApp` namespace object: its named properties. -/
abbrev AppObj := List (String × AppMember)

/-- The part of `window` the namespace-creation step reads and writes:
`window.myApp` is either undefined (`none`) or an object (`some`). -/
structure Window where
  myApp : Option AppObj
deriving Repr, DecidableEq

/-- Embeds `window.myApp || {}` (grunt.js lines 140, 179, 218): JavaScript
`||` returns its left operand when truthy; `window.myApp` is only ever
undefined (falsy) or an object (truthy), so the result is the existing
object when present and a fresh empty object otherwise. -/
def orEmpty (v : Option AppObj) : AppObj := v.getD []

/-- Embeds `var myApp = window.myApp = window.myApp || {}` (grunt.js lines
140, 179, 218): the namespace-creation step each IIFE runs, storing the
resulting object back on `window.myApp`. -/
def installNamespace (w : Window) : Window := ⟨some (orEmpty w.myApp)⟩

/-- A window whose `myApp` already carries the properties earlier IIFEs
attached. -/
def wWindow : Window :=
  ⟨some [("sayHello", .sayHelloFn), ("SecretMessage", .secretMessageModule),
    ("Person", .personCtor)]⟩

/-- The three private secret messages (grunt.js lines 186-190). -/
def secretMessages : List String :=
  ["Don't eat the yellow snow",
   "Tacocat rides at midnight",
   "Able was I ere I saw Elba"]

/-- Embeds `var idx = Math.floor( Math.random() * secretMessages.length )`
(grunt.js line 196).  `Math.random()` returns a value `r` with
`0 ≤ r < 1`; the arithmetic is exact over ℚ for these small values, so the
rational model coincides with the JavaScript float computation. -/
def sayIndex (r : ℚ) : ℤ := Int.floor (r * (secretMessages.length : ℚ))

/-- Embeds `console.log( secretMessages[ idx ] )` (grunt.js line 197): the
message `say` would log for the random draw `r`, `none` when the index is
out of bounds (where JavaScript would log `undefined`). -/
def sayMessage (r : ℚ) : Option String := secretMessages[(sayIndex r).toNat]?

section RegistryLemmas

variable {V : Type}

theorem stateRank_le_two (s : Option (ModState V)) : stateRank s ≤ 2 := by
  cases s with
  | none => simp [stateRank]
  | some s => cases s <;> simp [stateRank]

theorem find_mk (recs : List (Name × ModRecord V)) (log : List (Name × List V))
    (n : Name) : Registry.find ⟨recs, log⟩ n = recs.lookup n := rfl

theorem log_setState (r : Registry V) (n : Name) (s : ModState V) :
    (r.setState n s).log = r.log := rfl

theorem lookup_map_key_preserving (l : List (Name × ModRecord V))
    (f : Name × ModRecord V → ModRecord V) (n : Name) :
    (l.map fun p => (p.1, f p)).lookup n = (l.find? fun p => p.1 = n).map f := by
  induction l with
  | nil => rfl
  | cons p tl ih =>
    by_cases h : p.1 = n
    · simp [List.lookup, List.find?, h]
    · have hb : (n == p.1) = false := by
        simp [Ne.symm h]
      simp [List.lookup, List.find?, hb, h, ih]

theorem lookup_eq_find? (l : List (Name × ModRecord V)) (n : Name) :
    l.lookup n = (l.find? fun p => p.1 = n).map Prod.snd := by
  induction l with
  | nil => rfl
  | cons p tl ih =>
    by_cases h : p.1 = n
    · simp [List.lookup, List.find?, h]
    · have hb : (n == p.1) = false := by simp [Ne.symm h]
      simp [List.lookup, List.find?, hb, h, ih]

theorem find_setState_self (r : Registry V) (n : Name) (s : ModState V) :
    (r.setState n s).find n
      = (r.find n).map fun rec => ⟨rec.deps, rec.factory, s⟩ := by
  show (r.records.map _).lookup n = _
  rw [show (fun p : Name × ModRecord V =>
        if p.1 = n then (p.1, (⟨p.2.deps, p.2.factory, s⟩ : ModRecord V)) else p)
      = fun p => (p.1, if p.1 = n then ⟨p.2.deps, p.2.factory, s⟩ else p.2) from ?_]
  · rw [lookup_map_key_preserving]
    show _ = (r.records.lookup n).map _
    rw [lookup_eq_find?]
    cases hf : r.records.find? fun p => p.1 = n with
    | none => simp
    | some p =>
      have hp : p.1 = n := by
        have := List.find?_some hf
        simpa using this
      simp [hp]
  · funext p
    by_cases h : p.1 = n <;> simp [h]

theorem find_setState_ne (r : Registry V) (m n : Name) (s : ModState V)
    (h : m ≠ n) : (r.setState n s).find m = r.find m := by
  show (r.records.map _).lookup m = r.records.lookup m
  rw [show (fun p : Name × ModRecord V =>
        if p.1 = n then (p.1, (⟨p.2.deps, p.2.factory, s⟩ : ModRecord V)) else p)
      = fun p => (p.1, if p.1 = n then ⟨p.2.deps, p.2.factory, s⟩ else p.2) from ?_]
  · rw [lookup_map_key_preserving, lookup_eq_find?]
    cases hf : r.records.find? fun p => p.1 = m with
    | none => simp
    | some p =>
      have hp : p.1 = m := by
        have := List.find?_some hf
        simpa using this
      simp [hp, h]
  · funext p
    by_cases hh : p.1 = n <;> simp [hh]

theorem find_setRecord_self (r : Registry V) (n : Name) (rec : ModRecord V) :
    (r.setRecord n rec).find n = some rec := by
  show List.lookup n ((n, rec) :: _) = some rec
  simp [List.lookup]

theorem log_setRecord (r : Registry V) (n : Name) (rec : ModRecord V) :
    (r.setRecord n rec).log = r.log := rfl

theorem length_pos_of_find (r : Registry V) (n : Name) (rec : ModRecord V)
    (h : r.find n = some rec) : ∃ k, r.records.length = k + 1 := by
  cases hr : r.records with
  | nil =>
    rw [Registry.find, hr] at h
    simp [List.lookup] at h
  | cons p tl => exact ⟨tl.length, by simp [hr]⟩

theorem length_ge_two_of_find_two (r : Registry V) (m n : Name)
    (rec1 rec2 : ModRecord V) (h1 : r.find m = some rec1)
    (h2 : r.find n = some rec2) (hne : m ≠ n) :
    ∃ k, r.records.length = k + 2 := by
  rw [Registry.find, lookup_eq_find?] at h1 h2
  cases hf1 : r.records.find? fun p => p.1 = m with
  | none => rw [hf1] at h1; simp at h1
  | some p =>
    have hpm : p.1 = m := by simpa using List.find?_some hf1
    have hmem : p ∈ r.records := List.mem_of_find?_eq_some hf1
    obtain ⟨l1, l2, hsplit⟩ := List.append_of_mem hmem
    cases hf2 : (l1 ++ p :: l2).find? fun q => q.1 = n with
    | none => rw [hsplit, hf2] at h2; simp at h2
    | some q =>
      have hqn : q.1 = n := by simpa using List.find?_some hf2
      have hqmem : q ∈ l1 ++ p :: l2 := List.mem_of_find?_eq_some hf2
      have hq : q ∈ l1 ∨ q ∈ l2 := by
        rcases List.mem_append.mp hqmem with h | h
        · exact Or.inl h
        · rcases List.mem_cons.mp h with h | h
          · exact absurd (h ▸ hqn) (hpm ▸ hne)
          · exact Or.inr h
      rcases hq with h | h
      · obtain ⟨a, l1', ha⟩ : ∃ a l1', l1 = a :: l1' := by
          cases l1 with
          | nil => simp at h
          | cons a l1' => exact ⟨a, l1', rfl⟩
        refine ⟨l1'.length + l2.length, ?_⟩
        rw [hsplit, ha]
        simp
        omega
      · obtain ⟨a, l2', ha⟩ : ∃ a l2', l2 = a :: l2' := by
          cases l2 with
          | nil => simp at h
          | cons a l2' => exact ⟨a, l2', rfl⟩
        refine ⟨l1.length + l2'.length, ?_⟩
        rw [hsplit, ha]
        simp
        omega

end RegistryLemmas

section StepLemmas

variable {V : Type}

theorem requireAux_none (fuel : Nat) (r : Registry V) (path : List Name)
    (name : Name) (h : r.find name = none) :
    requireAux (fuel + 1) r path name = (r, .error (.unknownModule name)) := by
  simp [requireAux, h]

theorem requireAux_resolved (fuel : Nat) (r : Registry V) (path : List Name)
    (name : Name) (rec : ModRecord V) (v : V) (h : r.find name = some rec)
    (hs : rec.state = .resolved v) :
    requireAux (fuel + 1) r path name = (r, .ok v) := by
  simp [requireAux, h, hs]

theorem requireAux_resolving (fuel : Nat) (r : Registry V) (path : List Name)
    (name : Name) (rec : ModRecord V) (h : r.find name = some rec)
    (hs : rec.state = .resolving) :
    requireAux (fuel + 1) r path name
      = (r, .error (.cyclicDependency (path ++ [name]))) := by
  simp [requireAux, h, hs]

theorem requireAux_unresolved (fuel : Nat) (r : Registry V) (path : List Name)
    (name : Name) (rec : ModRecord V) (h : r.find name = some rec)
    (hs : rec.state = .unresolved) :
    requireAux (fuel + 1) r path name
      = match resolveDeps (fun r' d => requireAux fuel r' (path ++ [name]) d)
          (r.setState name .resolving) rec.deps with
        | (r2, .error e) => (r2, .error e)
        | (r2, .ok vals) =>
          (⟨(r2.setState name (.resolved (rec.factory vals))).records,
            (r2.setState name (.resolved (rec.factory vals))).log
              ++ [(name, vals)]⟩,
           .ok (rec.factory vals)) := by
  simp [requireAux, h, hs]

theorem resolveDeps_nil (req : Registry V → Name → Registry V × Except ModError V)
    (r : Registry V) : resolveDeps req r [] = (r, .ok []) := rfl

theorem resolveDeps_cons_ok
    (req : Registry V → Name → Registry V × Except ModError V)
    (r r' : Registry V) (d : Name) (ds : List Name) (v : V)
    (h : req r d = (r', .ok v)) :
    resolveDeps req r (d :: ds)
      = match resolveDeps req r' ds with
        | (r'', .error e) => (r'', .error e)
        | (r'', .ok vs) => (r'', .ok (v :: vs)) := by
  simp [resolveDeps, h]

theorem resolveDeps_cons_err
    (req : Registry V → Name → Registry V × Except ModError V)
    (r r' : Registry V) (d : Name) (ds : List Name) (e : ModError)
    (h : req r d = (r', .error e)) :
    resolveDeps req r (d :: ds) = (r', .error e) := by
  simp [resolveDeps, h]

end StepLemmas

section Preservation

variable {V : Type}

theorem resolveDeps_preserves_resolving
    (req : Registry V → Name → Registry V × Except ModError V)
    (hreq : ∀ r d n rec, r.find n = some rec → rec.state = .resolving →
      (req r d).1.find n = some rec) :
    ∀ ds (r : Registry V) n rec, r.find n = some rec → rec.state = .resolving →
      (resolveDeps req r ds).1.find n = some rec := by
  intro ds
  induction ds with
  | nil => intro r n rec h _; simpa [resolveDeps] using h
  | cons d ds ih =>
    intro r n rec h hs
    have h1 := hreq r d n rec h hs
    cases hq : req r d with
    | mk r' res =>
      rw [hq] at h1
      cases res with
      | error e => simpa [resolveDeps, hq] using h1
      | ok v =>
        have h2 := ih r' n rec h1 hs
        rw [resolveDeps_cons_ok req r r' d ds v hq]
        cases hd : resolveDeps req r' ds with
        | mk r'' res' =>
          rw [hd] at h2
          cases res' with
          | error e => simpa using h2
          | ok vs => simpa using h2

theorem requireAux_preserves_resolving :
    ∀ fuel (r : Registry V) path m n rec, r.find n = some rec →
      rec.state = .resolving → (requireAux fuel r path m).1.find n = some rec := by
  intro fuel
  induction fuel with
  | zero => intro r path m n rec h _; simpa [requireAux] using h
  | succ fuel ih =>
    intro r path m n rec h hs
    cases hf : r.find m with
    | none => rw [requireAux_none fuel r path m hf]; exact h
    | some recm =>
      cases hsm : recm.state with
      | resolved v => rw [requireAux_resolved fuel r path m recm v hf hsm]; exact h
      | resolving => rw [requireAux_resolving fuel r path m recm hf hsm]; exact h
      | unresolved =>
        have hmn : m ≠ n := by
          intro e
          subst e
          rw [h] at hf
          cases hf
          rw [hsm] at hs
          cases hs
        rw [requireAux_unresolved fuel r path m recm hf hsm]
        have h1 : (r.setState m .resolving).find n = some rec := by
          rw [find_setState_ne r n m _ (Ne.symm hmn)]
          exact h
        have hpres := resolveDeps_preserves_resolving
          (fun r' d => requireAux fuel r' (path ++ [m]) d)
          (fun r' d n' rec' h' hs' => ih r' (path ++ [m]) d n' rec' h' hs')
          recm.deps (r.setState m .resolving) n rec h1 hs
        cases hd : resolveDeps (fun r' d => requireAux fuel r' (path ++ [m]) d)
            (r.setState m .resolving) recm.deps with
        | mk r2 res =>
          rw [hd] at hpres
          cases res with
          | error e => simpa using hpres
          | ok vals =>
            show Registry.find
              ⟨(r2.setState m (.resolved (recm.factory vals))).records, _⟩ n
                = some rec
            have : Registry.find
                ⟨(r2.setState m (.resolved (recm.factory vals))).records,
                  (r2.setState m (.resolved (recm.factory vals))).log
                    ++ [(m, vals)]⟩ n
                  = (r2.setState m (.resolved (recm.factory vals))).find n := rfl
            rw [this, find_setState_ne r2 n m _ (Ne.symm hmn)]
            exact hpres

theorem stateOf_mk_setState (r : Registry V) (m : Name) (s : ModState V)
    (L : List (Name × List V)) (n : Name) :
    Registry.stateOf ⟨(r.setState m s).records, L⟩ n
      = (r.setState m s).stateOf n := rfl

theorem resolveDeps_mono
    (req : Registry V → Name → Registry V × Except ModError V)
    (hreq : ∀ r d n, stateRank (r.stateOf n)
      ≤ stateRank ((req r d).1.stateOf n)) :
    ∀ ds (r : Registry V) n, stateRank (r.stateOf n)
      ≤ stateRank ((resolveDeps req r ds).1.stateOf n) := by
  intro ds
  induction ds with
  | nil => intro r n; simp [resolveDeps]
  | cons d ds ih =>
    intro r n
    have h1 := hreq r d n
    cases hq : req r d with
    | mk r' res =>
      rw [hq] at h1
      cases res with
      | error e => simpa [resolveDeps, hq] using h1
      | ok v =>
        have h2 := ih r' n
        rw [resolveDeps_cons_ok req r r' d ds v hq]
        cases hd : resolveDeps req r' ds with
        | mk r'' res' =>
          rw [hd] at h2
          cases res' with
          | error e => simpa using h1.trans h2
          | ok vs => simpa using h1.trans h2

theorem requireAux_mono :
    ∀ fuel (r : Registry V) path m n, stateRank (r.stateOf n)
      ≤ stateRank ((requireAux fuel r path m).1.stateOf n) := by
  intro fuel
  induction fuel with
  | zero => intro r path m n; simp [requireAux]
  | succ fuel ih =>
    intro r path m n
    cases hf : r.find m with
    | none => rw [requireAux_none fuel r path m hf]
    | some recm =>
      cases hsm : recm.state with
      | resolved v => rw [requireAux_resolved fuel r path m recm v hf hsm]
      | resolving => rw [requireAux_resolving fuel r path m recm hf hsm]
      | unresolved =>
        rw [requireAux_unresolved fuel r path m recm hf hsm]
        by_cases hmn : n = m
        · subst hmn
          have h0 : r.stateOf n = some .unresolved := by
            simp [Registry.stateOf, hf, hsm]
          rw [h0]
          simp [stateRank]
        · have e1 : (r.setState m .resolving).stateOf n = r.stateOf n := by
            rw [Registry.stateOf, Registry.stateOf,
              find_setState_ne r n m _ hmn]
          have h1 := resolveDeps_mono
            (fun r' d => requireAux fuel r' (path ++ [m]) d)
            (fun r' d n' => ih r' (path ++ [m]) d n')
            recm.deps (r.setState m .resolving) n
          rw [e1] at h1
          cases hd : resolveDeps (fun r' d => requireAux fuel r' (path ++ [m]) d)
              (r.setState m .resolving) recm.deps with
          | mk r2 res =>
            rw [hd] at h1
            cases res with
            | error e => simpa using h1
            | ok vals =>
              refine h1.trans ?_
              show stateRank (r2.stateOf n) ≤ stateRank (Registry.stateOf
                ⟨(r2.setState m (.resolved (recm.factory vals))).records, _⟩ n)
              rw [stateOf_mk_setState, Registry.stateOf, Registry.stateOf,
                find_setState_ne r2 n m _ hmn]

end Preservation

/-- After a successful `require`, the required name's record is Resolved and
caches the returned value. -/
theorem find_after_require_ok {V : Type} (r r' : Registry V) (name : Name)
    (v : V) (h : requireM r name = (r', .ok v)) :
    ∃ deps f, r'.find name = some ⟨deps, f, .resolved v⟩ := by
  rw [requireM] at h
  cases hf : r.find name with
  | none =>
    rw [requireAux_none _ r [] name hf] at h
    simp at h
  | some rec =>
    cases hs : rec.state with
    | resolving =>
      rw [requireAux_resolving _ r [] name rec hf hs] at h
      simp at h
    | resolved w =>
      rw [requireAux_resolved _ r [] name rec w hf hs] at h
      rw [Prod.mk.injEq, Except.ok.injEq] at h
      obtain ⟨h1, h2⟩ := h
      subst h1
      subst h2
      refine ⟨rec.deps, rec.factory, ?_⟩
      rw [hf]
      cases rec with
      | mk d f s =>
        simp only [] at hs ⊢
        rw [hs]
    | unresolved =>
      rw [requireAux_unresolved _ r [] name rec hf hs] at h
      split at h
      next r2 e heq => simp at h
      next r2 vals heq =>
        rw [Prod.mk.injEq, Except.ok.injEq] at h
        obtain ⟨hr', hv⟩ := h
        have hr1 : (r.setState name .resolving).find name
            = some ⟨rec.deps, rec.factory, .resolving⟩ := by
          rw [find_setState_self, hf]
          rfl
        have h2 := resolveDeps_preserves_resolving
          (fun r' d => requireAux r.records.length r' ([] ++ [name]) d)
          (fun r' d n' rec' h' hs' =>
            requireAux_preserves_resolving _ r' _ d n' rec' h' hs')
          rec.deps (r.setState name .resolving) name
          ⟨rec.deps, rec.factory, .resolving⟩ hr1 rfl
        rw [heq] at h2
        refine ⟨rec.deps, rec.factory, ?_⟩
        rw [← hr']
        show (r2.setState name (.resolved (rec.factory vals))).find name = _
        rw [find_setState_self, h2, hv]
        rfl

/-- C1: for every registered module name, requiring it a second time returns
the identical cached value and leaves the registry — invocation log included
— completely unchanged, so the module's factory executes exactly once per
registry lifetime and is never re-invoked on the second or any subsequent
`require`. -/
theorem require_idempotent {V : Type} (r r' : Registry V) (name : Name)
    (v : V) (h : requireM r name = (r', .ok v)) :
    requireM r' name = (r', .ok v) := by
  obtain ⟨deps, f, hfind⟩ := find_after_require_ok r r' name v h
  rw [requireM,
    requireAux_resolved _ r' [] name ⟨deps, f, .resolved v⟩ v hfind rfl]

/-- Witness for C1 at a concrete one-module registry. -/
theorem require_idempotent_witness :
    requireM wRegC1' "M" = (wRegC1', .ok 42) :=
  require_idempotent wRegC1 wRegC1' "M" 42 rfl

/-- C2: for all modules `A` and `B`, if `A` is defined with dependency `B`
(so its record is Unresolved with dependency list `[B]`) and `B` is defined
with no dependencies, then `require A` succeeds with `A`'s factory applied
to `B`'s resolved value, and the invocation log extends by exactly one entry
for `B`'s factory followed by exactly one entry for `A`'s factory — each
executes exactly once, and `B`'s invocation completes before `A`'s runs. -/
theorem require_dependent_order {V : Type} (r : Registry V) (A B : Name)
    (recA recB : ModRecord V)
    (hA : r.find A = some recA) (hdA : recA.deps = [B])
    (hsA : recA.state = .unresolved)
    (hB : r.find B = some recB) (hdB : recB.deps = [])
    (hsB : recB.state = .unresolved) (hne : A ≠ B) :
    (requireM r A).2 = .ok (recA.factory [recB.factory []])
      ∧ (requireM r A).1.log
          = r.log ++ [(B, []), (A, [recB.factory []])] := by
  obtain ⟨k, hk⟩ := length_pos_of_find r A recA hA
  have hfB1 : (r.setState A .resolving).find B = some recB := by
    rw [find_setState_ne r B A _ (Ne.symm hne)]
    exact hB
  have hstepB : requireAux (k + 1) (r.setState A .resolving) ([] ++ [A]) B
      = (⟨(((r.setState A .resolving).setState B .resolving).setState B
            (.resolved (recB.factory []))).records,
          (((r.setState A .resolving).setState B .resolving).setState B
            (.resolved (recB.factory []))).log ++ [(B, [])]⟩,
         .ok (recB.factory [])) := by
    rw [requireAux_unresolved k _ _ B recB hfB1 hsB, hdB, resolveDeps_nil]
  have hcons : resolveDeps
      (fun r' d => requireAux (k + 1) r' ([] ++ [A]) d)
      (r.setState A .resolving) [B]
      = (⟨(((r.setState A .resolving).setState B .resolving).setState B
            (.resolved (recB.factory []))).records,
          (((r.setState A .resolving).setState B .resolving).setState B
            (.resolved (recB.factory []))).log ++ [(B, [])]⟩,
         .ok [recB.factory []]) := by
    rw [resolveDeps_cons_ok _ _ _ B [] (recB.factory []) hstepB,
      resolveDeps_nil]
  have hmain : requireM r A
      = (⟨((⟨(((r.setState A .resolving).setState B .resolving).setState B
              (.resolved (recB.factory []))).records,
            (((r.setState A .resolving).setState B .resolving).setState B
              (.resolved (recB.factory []))).log ++ [(B, [])]⟩ : Registry V).setState
              A (.resolved (recA.factory [recB.factory []]))).records,
          ((⟨(((r.setState A .resolving).setState B .resolving).setState B
              (.resolved (recB.factory []))).records,
            (((r.setState A .resolving).setState B .resolving).setState B
              (.resolved (recB.factory []))).log ++ [(B, [])]⟩ : Registry V).setState
              A (.resolved (recA.factory [recB.factory []]))).log
            ++ [(A, [recB.factory []])]⟩,
         .ok (recA.factory [recB.factory []])) := by
    rw [requireM, requireAux_unresolved r.records.length r [] A recA hA hsA,
      hdA, hk, hcons]
  rw [hmain]
  refine ⟨rfl, ?_⟩
  simp [log_setState]

/-- Witness for C2 at a concrete two-module registry. -/
theorem require_dependent_order_witness :
    (requireM wRegC2 "A").2 = .ok 3
      ∧ (requireM wRegC2 "A").1.log = [("B", []), ("A", [2])] := by
  have h := require_dependent_order wRegC2 "A" "B"
    ⟨["B"], fun vs => vs.headD 0 + 1, .unresolved⟩
    ⟨[], fun _ => 2, .unresolved⟩
    rfl rfl rfl rfl rfl rfl (by decide)
  simpa using h

theorem setState_fun_comp (n : Name) (s1 s2 : ModState V) :
    ((fun p : Name × ModRecord V =>
        if p.1 = n then (p.1, ⟨p.2.deps, p.2.factory, s2⟩) else p)
      ∘ fun p =>
        if p.1 = n then (p.1, ⟨p.2.deps, p.2.factory, s1⟩) else p)
    = fun p => if p.1 = n then (p.1, ⟨p.2.deps, p.2.factory, s2⟩) else p := by
  funext p
  by_cases h : p.1 = n <;> simp [h]

theorem setState_setState (r : Registry V) (n : Name) (s1 s2 : ModState V) :
    (r.setState n s1).setState n s2 = r.setState n s2 := by
  show Registry.mk _ _ = Registry.mk _ _
  simp only [Registry.setState, List.map_map, setState_fun_comp]

/-- Resolving a dependency-free Unresolved module: the record becomes
Resolved with the factory's value and one log entry is appended. -/
theorem requireAux_leaf (fuel : Nat) (r : Registry V) (path : List Name)
    (name : Name) (rec : ModRecord V) (h : r.find name = some rec)
    (hd : rec.deps = []) (hs : rec.state = .unresolved) :
    requireAux (fuel + 1) r path name
      = (⟨(r.setState name (.resolved (rec.factory []))).records,
          r.log ++ [(name, [])]⟩, .ok (rec.factory [])) := by
  rw [requireAux_unresolved fuel r path name rec h hs, hd, resolveDeps_nil]
  simp [setState_setState, log_setState]

/-- C3: for every module `M` defined with dependency list `[A, B]`, when
`require M` invokes `M`'s factory, the factory's positional arguments are
exactly the resolved values of `A` and of `B`, in declared order: the log
entry for `M` is `(M, [value of A, value of B])`.  The hypotheses constrain
only the records found for `M`, `A` and `B`, not the order in which they
were defined, so the conclusion holds regardless of the definition order of
`A` and `B`. -/
theorem require_argument_order {V : Type} (r : Registry V) (M A B : Name)
    (recM recA recB : ModRecord V)
    (hM : r.find M = some recM) (hdM : recM.deps = [A, B])
    (hsM : recM.state = .unresolved)
    (hA : r.find A = some recA) (hdA : recA.deps = [])
    (hsA : recA.state = .unresolved)
    (hB : r.find B = some recB) (hdB : recB.deps = [])
    (hsB : recB.state = .unresolved)
    (hMA : M ≠ A) (hMB : M ≠ B) (hAB : A ≠ B) :
    (requireM r M).2 = .ok (recM.factory [recA.factory [], recB.factory []])
      ∧ (requireM r M).1.log
          = r.log ++ [(A, []), (B, []),
              (M, [recA.factory [], recB.factory []])] := by
  obtain ⟨k, hk⟩ := length_pos_of_find r M recM hM
  have hfA1 : (r.setState M .resolving).find A = some recA := by
    rw [find_setState_ne r A M _ (Ne.symm hMA)]
    exact hA
  have hstepA := requireAux_leaf k (r.setState M .resolving) ([] ++ [M]) A
    recA hfA1 hdA hsA
  have hfB2 : (Registry.find
      ⟨((r.setState M .resolving).setState A (.resolved (recA.factory []))).records,
        (r.setState M .resolving).log ++ [(A, [])]⟩ B) = some recB := by
    show ((r.setState M .resolving).setState A
      (.resolved (recA.factory []))).find B = some recB
    rw [find_setState_ne _ B A _ (Ne.symm hAB),
      find_setState_ne r B M _ (Ne.symm hMB)]
    exact hB
  have hstepB := requireAux_leaf k
    ⟨((r.setState M .resolving).setState A (.resolved (recA.factory []))).records,
      (r.setState M .resolving).log ++ [(A, [])]⟩ ([] ++ [M]) B recB hfB2 hdB hsB
  rw [requireM, requireAux_unresolved r.records.length r [] M recM hM hsM,
    hdM, hk]
  rw [resolveDeps_cons_ok _ _ _ A [B] (recA.factory []) hstepA]
  rw [resolveDeps_cons_ok _ _ _ B [] (recB.factory []) hstepB]
  rw [resolveDeps_nil]
  refine ⟨rfl, ?_⟩
  show (Registry.setState _ M _).log ++ _ = _
  rw [log_setState]
  show (Registry.log ⟨(Registry.setState _ B _).records, _⟩) ++ _ = _
  show ((r.setState M .resolving).log ++ [(A, [])]) ++ [(B, [])] ++ _ = _
  rw [log_setState]
  simp

/-- Witness for C3 at a concrete three-module registry. -/
theorem require_argument_order_witness :
    (requireM wRegC3 "M").2 = .ok 72
      ∧ (requireM wRegC3 "M").1.log = [("A", []), ("B", []), ("M", [7, 2])] := by
  have h := require_argument_order wRegC3 "M" "A" "B"
    ⟨["A", "B"], fun vs => 10 * vs.headD 0 + (vs.drop 1).headD 0, .unresolved⟩
    ⟨[], fun _ => 7, .unresolved⟩
    ⟨[], fun _ => 2, .unresolved⟩
    rfl rfl rfl rfl rfl rfl rfl rfl rfl
    (by decide) (by decide) (by decide)
  simpa using h

/-- C4: for every pair of modules `A` and `B` where `A` depends on `B` and
`B` depends on `A`, `require A` terminates (requireM is a total function of
the registry) and fails with `CyclicDependencyError` naming the cycle path
`A → B → A`. -/
theorem require_cycle_error {V : Type} (r : Registry V) (A B : Name)
    (recA recB : ModRecord V)
    (hA : r.find A = some recA) (hdA : recA.deps = [B])
    (hsA : recA.state = .unresolved)
    (hB : r.find B = some recB) (hdB : recB.deps = [A])
    (hsB : recB.state = .unresolved) (hne : A ≠ B) :
    (requireM r A).2 = .error (.cyclicDependency [A, B, A]) := by
  obtain ⟨k, hk⟩ := length_ge_two_of_find_two r A B recA recB hA hB hne
  have hk' : r.records.length = (k + 1) + 1 := by omega
  have hfB1 : (r.setState A .resolving).find B = some recB := by
    rw [find_setState_ne r B A _ (Ne.symm hne)]
    exact hB
  have hfA2 : ((r.setState A .resolving).setState B .resolving).find A
      = some ⟨recA.deps, recA.factory, .resolving⟩ := by
    rw [find_setState_ne _ A B _ hne, find_setState_self, hA]
    rfl
  have hstepA := requireAux_resolving k
    ((r.setState A .resolving).setState B .resolving) (([] ++ [A]) ++ [B]) A
    ⟨recA.deps, recA.factory, .resolving⟩ hfA2 rfl
  have hstepB : requireAux ((k + 1) + 1) (r.setState A .resolving)
      ([] ++ [A]) B
      = ((r.setState A .resolving).setState B .resolving,
         .error (.cyclicDependency ((([] ++ [A]) ++ [B]) ++ [A]))) := by
    rw [requireAux_unresolved (k + 1) _ _ B recB hfB1 hsB, hdB,
      resolveDeps_cons_err _ _ _ A [] _ hstepA]
  rw [requireM, requireAux_unresolved r.records.length r [] A recA hA hsA,
    hdA, hk', resolveDeps_cons_err _ _ _ B [] _ hstepB]
  simp

/-- Witness for C4 at a concrete mutually-dependent registry. -/
theorem require_cycle_error_witness :
    (requireM wRegC4 "A").2
      = .error (.cyclicDependency ["A", "B", "A"]) :=
  require_cycle_error wRegC4 "A" "B"
    ⟨["B"], fun _ => 0, .unresolved⟩ ⟨["A"], fun _ => 1, .unresolved⟩
    rfl rfl rfl rfl rfl rfl (by decide)

/-- C5: `require name` fails with `UnknownModuleError` naming `name`
whenever `name` was never defined, and requiring a module `X` whose declared
dependency `Y` was never defined fails with `UnknownModuleError` naming
`Y`. -/
theorem require_unknown_error {V : Type} :
    (∀ (r : Registry V) (name : Name), r.find name = none →
      (requireM r name).2 = .error (.unknownModule name))
    ∧ (∀ (r : Registry V) (X Y : Name) (recX : ModRecord V),
        r.find X = some recX → recX.deps = [Y] →
        recX.state = .unresolved → r.find Y = none →
        (requireM r X).2 = .error (.unknownModule Y)) := by
  constructor
  · intro r name h
    rw [requireM, requireAux_none r.records.length r [] name h]
  · intro r X Y recX hX hdX hsX hY
    have hne : Y ≠ X := by
      intro e
      rw [e, hX] at hY
      cases hY
    obtain ⟨k, hk⟩ := length_pos_of_find r X recX hX
    have hfY1 : (r.setState X .resolving).find Y = none := by
      rw [find_setState_ne r Y X _ hne]
      exact hY
    have hstepY := requireAux_none k (r.setState X .resolving) ([] ++ [X]) Y
      hfY1
    rw [requireM, requireAux_unresolved r.records.length r [] X recX hX hsX,
      hdX, hk, resolveDeps_cons_err _ _ _ Y [] _ hstepY]

/-- Witness for C5: an unregistered top-level name and an unregistered
transitive dependency both fail with `UnknownModuleError`. -/
theorem require_unknown_error_witness :
    (requireM (Registry.empty Nat) "Z").2 = .error (.unknownModule "Z")
      ∧ (requireM wRegC5 "X").2 = .error (.unknownModule "Y") :=
  ⟨require_unknown_error.1 (Registry.empty Nat) "Z" rfl,
   require_unknown_error.2 wRegC5 "X" "Y" ⟨["Y"], fun _ => 0, .unresolved⟩
     rfl rfl rfl rfl⟩

/-- C6: defining `M` twice before any `require M` replaces the earlier
definition — after the second `define`, `M`'s record holds `f2`, and
`require M` invokes `f2` (one log entry, with `f2`'s value returned), not
`f1` — while a record that has already been Resolved is not replaced by a
later `define`. -/
theorem define_redefinition {V : Type} :
    (∀ (r r1 r2 : Registry V) (M : Name) (f1 f2 : List V → V),
      r.find M = none → defineM r M [] f1 = .ok r1 →
      defineM r1 M [] f2 = .ok r2 →
      r2.find M = some ⟨[], f2, .unresolved⟩
        ∧ (requireM r2 M).2 = .ok (f2 [])
        ∧ (requireM r2 M).1.log = r2.log ++ [(M, [])])
    ∧ (∀ (r : Registry V) (n : Name) (rec : ModRecord V) (v : V)
        (deps : List Name) (f : List V → V),
        r.find n = some rec → rec.state = .resolved v →
        defineM r n deps f = .ok r) := by
  constructor
  · intro r r1 r2 M f1 f2 h0 h1 h2
    rw [defineM, h0, Except.ok.injEq] at h1
    have hf1 : r1.find M = some ⟨[], f1, .unresolved⟩ := by
      rw [← h1]
      exact find_setRecord_self r M _
    rw [defineM, hf1] at h2
    simp only [Except.ok.injEq] at h2
    have hf2 : r2.find M = some ⟨[], f2, .unresolved⟩ := by
      rw [← h2]
      exact find_setRecord_self r1 M _
    refine ⟨hf2, ?_⟩
    have hleaf := requireAux_leaf r2.records.length r2 [] M
      ⟨[], f2, .unresolved⟩ hf2 rfl rfl
    rw [requireM, hleaf]
    exact ⟨rfl, rfl⟩
  · intro r n rec v deps f h hs
    simp [defineM, h, hs]

/-- Witness for C6: redefining `"M"` with a factory returning `2` (after a
first definition returning `1`) makes `require "M"` produce `2`; and a
`define` on an already-Resolved record returns the registry unchanged. -/
theorem define_redefinition_witness :
    ((⟨[("M", ⟨[], fun _ => (2 : Nat), .unresolved⟩)], []⟩ : Registry Nat).find "M"
        = some ⟨[], fun _ => 2, .unresolved⟩
      ∧ (requireM (⟨[("M", ⟨[], fun _ => 2, .unresolved⟩)], []⟩ : Registry Nat) "M").2
          = .ok 2
      ∧ (requireM (⟨[("M", ⟨[], fun _ => 2, .unresolved⟩)], []⟩ : Registry Nat) "M").1.log
          = (⟨[("M", ⟨[], fun _ => 2, .unresolved⟩)], []⟩ : Registry Nat).log
              ++ [("M", [])])
    ∧ defineM (⟨[("M", ⟨[], fun _ => (7 : Nat), .resolved 7⟩)], [("M", [])]⟩ : Registry Nat)
        "M" [] (fun _ => 9)
      = .ok ⟨[("M", ⟨[], fun _ => 7, .resolved 7⟩)], [("M", [])]⟩ :=
  ⟨define_redefinition.1 (Registry.empty Nat)
      ⟨[("M", ⟨[], fun _ => 1, .unresolved⟩)], []⟩
      ⟨[("M", ⟨[], fun _ => 2, .unresolved⟩)], []⟩
      "M" (fun _ => 1) (fun _ => 2) rfl rfl rfl,
   define_redefinition.2
      ⟨[("M", ⟨[], fun _ => 7, .resolved 7⟩)], [("M", [])]⟩
      "M" ⟨[], fun _ => 7, .resolved 7⟩ 7 [] (fun _ => 9) rfl rfl⟩

/-- C7: `define` fails with `DuplicateActiveModuleError` exactly when the
record for the name is currently Resolving; moreover this is the only error
`define` ever produces, and it is returned synchronously as the call's
value. -/
theorem define_duplicate_active {V : Type} :
    (∀ (r : Registry V) (name : Name) (deps : List Name) (f : List V → V),
      defineM r name deps f = .error (.duplicateActiveModule name)
        ↔ r.stateOf name = some .resolving)
    ∧ (∀ (r : Registry V) (name : Name) (deps : List Name) (f : List V → V)
        (e : ModError), defineM r name deps f = .error e →
        e = .duplicateActiveModule name) := by
  constructor
  · intro r name deps f
    constructor
    · intro h
      cases hf : r.find name with
      | none => rw [defineM, hf] at h; cases h
      | some rec =>
        cases hs : rec.state with
        | unresolved => simp [defineM, hf, hs] at h
        | resolved v => simp [defineM, hf, hs] at h
        | resolving => simp [Registry.stateOf, hf, hs]
    · intro h
      rw [Registry.stateOf] at h
      cases hf : r.find name with
      | none => rw [hf] at h; cases h
      | some rec =>
        rw [hf, Option.map_eq_some'] at h
        obtain ⟨s, hs1, hs2⟩ := h
        cases hs1
        simp [defineM, hf, hs2]
  · intro r name deps f e h
    cases hf : r.find name with
    | none => rw [defineM, hf] at h; cases h
    | some rec =>
      cases hs : rec.state with
      | unresolved => simp [defineM, hf, hs] at h
      | resolved v => simp [defineM, hf, hs] at h
      | resolving =>
        simp [defineM, hf, hs] at h
        rw [h]

/-- Witness for C7: on a registry whose `"M"` is Resolving, `define` fails
with `DuplicateActiveModuleError`, and that is the only error kind. -/
theorem define_duplicate_active_witness :
    defineM (⟨[("M", ⟨[], fun _ => (1 : Nat), .resolving⟩)], []⟩ : Registry Nat)
        "M" [] (fun _ => 2)
      = .error (.duplicateActiveModule "M")
      ∧ ModError.duplicateActiveModule "M"
          = .duplicateActiveModule "M" :=
  ⟨(define_duplicate_active.1
      ⟨[("M", ⟨[], fun _ => 1, .resolving⟩)], []⟩ "M" [] (fun _ => 2)).mpr rfl,
   define_duplicate_active.2
      ⟨[("M", ⟨[], fun _ => 1, .resolving⟩)], []⟩ "M" [] (fun _ => 2)
      (.duplicateActiveModule "M") rfl⟩

/-- C8: every module record only moves forward through the states
Unresolved → Resolving → Resolved (`stateRank` never decreases under
`require`, for every record in the registry), and when resolving an
Unresolved module fails for any reason, the registry `require` returns
leaves that module's record exactly Resolving — never a partial Resolved
record with a cached value. -/
theorem require_state_forward {V : Type} :
    (∀ (r : Registry V) (name n : Name),
      stateRank (r.stateOf n) ≤ stateRank ((requireM r name).1.stateOf n))
    ∧ (∀ (r : Registry V) (name : Name) (rec : ModRecord V) (e : ModError),
        r.find name = some rec → rec.state = .unresolved →
        (requireM r name).2 = .error e →
        (requireM r name).1.stateOf name = some .resolving) := by
  constructor
  · intro r name n
    exact requireAux_mono (r.records.length + 1) r [] name n
  · intro r name rec e hf hs herr
    rw [requireM, requireAux_unresolved r.records.length r [] name rec hf hs]
      at herr ⊢
    simp only [List.nil_append] at herr ⊢
    have hr1 : (r.setState name .resolving).find name
        = some ⟨rec.deps, rec.factory, .resolving⟩ := by
      rw [find_setState_self, hf]
      rfl
    have hpres := resolveDeps_preserves_resolving
      (fun r' d => requireAux r.records.length r' [name] d)
      (fun r' d n' rec' h' hs' =>
        requireAux_preserves_resolving _ r' _ d n' rec' h' hs')
      rec.deps (r.setState name .resolving) name
      ⟨rec.deps, rec.factory, .resolving⟩ hr1 rfl
    cases hd : resolveDeps
        (fun r' d => requireAux r.records.length r' [name] d)
        (r.setState name .resolving) rec.deps with
    | mk r2 res =>
      rw [hd] at hpres herr
      cases res with
      | ok vals => simp at herr
      | error e' =>
        show r2.stateOf name = some .resolving
        have hfind : r2.find name
            = some ⟨rec.deps, rec.factory, .resolving⟩ := hpres
        rw [Registry.stateOf, hfind]
        rfl

/-- Witness for C8: on the mutually-dependent registry, `require "A"` fails
and leaves `"A"` Resolving. -/
theorem require_state_forward_witness :
    (requireM wRegC4 "A").1.stateOf "A" = some .resolving :=
  require_state_forward.2 wRegC4 "A" ⟨["B"], fun _ => 0, .unresolved⟩
    (.cyclicDependency ["A", "B", "A"]) rfl rfl rfl

/-- C9: the namespace-creation step `window.myApp = window.myApp || {}` is
idempotent and preserving: an already-present (truthy) `myApp` object is
reused unchanged — every property previously attached survives — running
the step a second time equals running it once, and only on an absent
`myApp` is a fresh empty object installed. -/
theorem installNamespace_idempotent :
    (∀ (w : Window) (a : AppObj), w.myApp = some a →
      (installNamespace w).myApp = some a)
    ∧ (∀ w : Window,
        installNamespace (installNamespace w) = installNamespace w)
    ∧ (installNamespace ⟨none⟩).myApp = some [] := by
  refine ⟨?_, ?_, rfl⟩
  · intro w a h
    simp [installNamespace, orEmpty, h]
  · intro w
    cases w with
    | mk v => cases v <;> rfl

/-- Witness for C9: a window with `sayHello`, `SecretMessage` and `Person`
already attached keeps them all across the namespace step. -/
theorem installNamespace_idempotent_witness :
    (installNamespace wWindow).myApp
      = some [("sayHello", .sayHelloFn),
          ("SecretMessage", .secretMessageModule),
          ("Person", .personCtor)] :=
  installNamespace_idempotent.1 wWindow
    [("sayHello", .sayHelloFn), ("SecretMessage", .secretMessageModule),
      ("Person", .personCtor)] rfl

/-- C10: for every `Math.random()` draw `r` with `0 ≤ r < 1`, the index
`Math.floor(r * secretMessages.length)` computed by `SecretMessage.say` is
an integer in `[0, 2]` — a valid index into the three-element
`secretMessages` array — so `say` always logs one of the three fixed secret
messages and never accesses the array out of bounds. -/
theorem sayIndex_in_bounds (r : ℚ) (h0 : 0 ≤ r) (h1 : r < 1) :
    (0 ≤ sayIndex r ∧ sayIndex r ≤ 2)
      ∧ ∃ m, sayMessage r = some m ∧ m ∈ secretMessages := by
  have hlen : (secretMessages.length : ℚ) = 3 := by norm_num [secretMessages]
  have hge : 0 ≤ sayIndex r := by
    rw [sayIndex, hlen]
    exact Int.floor_nonneg.mpr (mul_nonneg h0 (by norm_num))
  have hlt : sayIndex r < 3 := by
    rw [sayIndex, hlen]
    refine Int.floor_lt.mpr ?_
    push_cast
    linarith
  have hlen3 : secretMessages.length = 3 := by norm_num [secretMessages]
  have hidx : (sayIndex r).toNat < secretMessages.length := by omega
  refine ⟨⟨hge, by omega⟩, secretMessages[(sayIndex r).toNat], ?_, ?_⟩
  · rw [sayMessage]
    exact List.getElem?_eq_getElem hidx
  · exact List.getElem_mem hidx

/-- Witness for C10 at the draw `r = 1/2`: the index is valid and the
logged message is one of the three secret messages. -/
theorem sayIndex_in_bounds_witness :
    (0 ≤ sayIndex (1 / 2) ∧ sayIndex (1 / 2) ≤ 2)
      ∧ ∃ m, sayMessage (1 / 2) = some m ∧ m ∈ secretMessages :=
  sayIndex_in_bounds (1 / 2) (by norm_num) (by norm_num)

end CodeOrg
